import Mathlib

/-!
Verification development for the scheduling core of a personal academic
planner (files `database.py`, `scheduler.py`, with `app.py` fixing the
runtime types that storage hands back).

Embedding conventions:
* Times of day are minutes after midnight (`Nat`, 0–1439): Python `time`
  objects compare like their minute values.
* Dates are absolute day numbers (`Int`), with day 0 a Monday, so the Python
  `date.weekday()` (Monday = 0) becomes `d % 7`.
* Timestamps (`datetime` values such as `now` and task due dates) are
  absolute minutes (`Int`); `ts / 1440` is the date part.  The Python
  `timedelta.days` field is floor division, which for the positive divisor
  1440 agrees with the Lean Euclidean `/` on `Int`.
* A stored due date is either a `datetime` object or an ISO string:
  app.py always inserts `datetime.combine(...)` and reads the column back
  as a `datetime` (it calls `.strftime`, `.date()`, `.time()` on it
  unconditionally), while scheduler.py also accepts ISO strings via
  `isinstance(due_date, str)` checks.  The sum type `DueDate` keeps the
  runtime type, because `auto_schedule_tasks` converts only the string
  form to a `date` and then evaluates `min(due_date, today + ...)`, which
  raises `TypeError` when `due_date` is still a `datetime`.
* Exceptions are modelled with `Except`: a raised `TypeError` aborts the
  run, and the `RunOutcome` record keeps the storage writes committed
  before the crash (Python has no rollback; `schedule_task` updates
  persist even when a later task raises).
* Slot scores in `find_best_time_slot` are CPython floats.  CPython float
  arithmetic is IEEE-754 binary64 with round-to-nearest-even, and every
  single operation on exact operands is correctly rounded, so the score
  pipeline is embedded exactly over `ℚ` with an explicit binary64
  rounding function applied after each operation.  Overflow to infinity
  (inputs beyond `2^1024`, astronomically far outside score magnitudes)
  is not modelled.  Rational arithmetic is written with `mkRat` and
  `Rat.divInt` so that all values are kernel-computable.
-/

namespace Todo

/-- Day window start, 08:00, from `get_free_slots` (database.py line 316). -/
def day_start : Nat := 480

/-- Day window end, 21:00, from `get_free_slots` (database.py line 317). -/
def day_end : Nat := 1260

/-- A row of the `timetable` table as the scheduling core sees it after
`get_classes_by_day` (active, non-cancelled classes of one weekday). -/
structure ClassSession where
  class_id : Nat
  start_time : Nat
  end_time : Nat
  deriving DecidableEq, Repr

/-- A free-slot dictionary `{start, end, duration}` produced by
`get_free_slots`; the `end` key is called `stop` because `end` is a Lean
keyword. -/
structure FreeSlot where
  start : Nat
  stop : Nat
  duration : Nat
  deriving DecidableEq, Repr

/-- Half-open interval overlap `[s1,e1) ∩ [s2,e2) ≠ ∅`. -/
def overlaps (s1 e1 s2 e2 : Nat) : Prop := s1 < e2 ∧ s2 < e1

instance (s1 e1 s2 e2 : Nat) : Decidable (overlaps s1 e1 s2 e2) :=
  inferInstanceAs (Decidable (s1 < e2 ∧ s2 < e1))

/-- `sorted(classes, key=lambda x: x[ start_time ])` — the Python sort is
stable, as is insertion sort. -/
def sort_classes (classes : List ClassSession) : List ClassSession :=
  List.insertionSort (fun a b => a.start_time ≤ b.start_time) classes

/-- The class-walk loop of `get_free_slots` (database.py lines 325–356).
`current_time` is the cursor; for each class the gap `time_diff` from the
cursor to the class start is emitted as a slot when it is at least the
target duration, and the cursor is then set to the end time of that class.
After the last class the trailing gap up to `day_end` is emitted the same
way. -/
def free_slots_walk (duration_minutes : Nat) :
    Nat → List ClassSession → List FreeSlot
  | current_time, [] =>
    let remaining : Int := (day_end : Int) - current_time
    if (duration_minutes : Int) ≤ remaining then
      [⟨current_time, day_end, remaining.toNat⟩]
    else []
  | current_time, c :: rest =>
    let time_diff : Int := (c.start_time : Int) - current_time
    (if (duration_minutes : Int) ≤ time_diff then
      [⟨current_time, c.start_time, time_diff.toNat⟩]
    else []) ++ free_slots_walk duration_minutes c.end_time rest

/-- `get_free_slots(day_of_week, duration_minutes)` (database.py lines
311–357), with the class list of the day already fetched. -/
def get_free_slots (classes : List ClassSession) (duration_minutes : Nat) :
    List FreeSlot :=
  free_slots_walk duration_minutes day_start (sort_classes classes)

/-- The successive values of the `current_time` cursor during the walk of
`free_slots_walk`: the initial value followed by the value after each
class is processed. -/
def cursor_trace : Nat → List ClassSession → List Nat
  | cur, [] => [cur]
  | cur, c :: rest => cur :: cursor_trace c.end_time rest

/-- Cursor values of the `get_free_slots` walk over the sorted class list. -/
def walk_cursors (classes : List ClassSession) : List Nat :=
  cursor_trace day_start (sort_classes classes)

/-- Time-of-day score of `find_best_time_slot` (scheduler.py lines 65–77),
as a function of the start hour of the slot. -/
def time_score (hour : Nat) : Nat :=
  if 14 ≤ hour ∧ hour < 18 then 10
  else if 9 ≤ hour ∧ hour < 12 then 8
  else if 12 ≤ hour ∧ hour < 14 then 6
  else if 18 ≤ hour ∧ hour < 21 then 5
  else 2

/-- Exact rational multiplication written with `mkRat` so the kernel can
compute it (the Batteries `Rat.mul` is marked irreducible). -/
def qmul (a b : ℚ) : ℚ := mkRat (a.num * b.num) (a.den * b.den)

/-- Exact rational addition, kernel-computable. -/
def qadd (a b : ℚ) : ℚ :=
  mkRat (a.num * (b.den : ℤ) + b.num * (a.den : ℤ)) (a.den * b.den)

/-- Exact rational subtraction, kernel-computable. -/
def qsub (a b : ℚ) : ℚ :=
  mkRat (a.num * (b.den : ℤ) - b.num * (a.den : ℤ)) (a.den * b.den)

/-- Boolean `a ≤ b` on rationals. -/
def qble (a b : ℚ) : Bool := !Rat.blt b a

/-- Python `min(a, b)`: the first argument when the two are equal. -/
def minq (a b : ℚ) : ℚ := if qble a b then a else b

/-- Fuel-driven base-2 logarithm; structural recursion on the fuel keeps
it kernel-computable (the library `Nat.log2` is well-founded recursion,
which the kernel cannot reduce). -/
def log2fuel : Nat → Nat → Nat
  | 0, _ => 0
  | fuel + 1, n => if n ≤ 1 then 0 else log2fuel fuel (n / 2) + 1

/-- `⌊log2 n⌋` for positive `n` (and 0 at 0). -/
def nlog2 (n : Nat) : Nat := log2fuel n n

/-- The rational `2 ^ k` for an integer exponent. -/
def pow2q (k : ℤ) : ℚ :=
  if 0 ≤ k then Rat.divInt (2 ^ k.toNat) 1 else Rat.divInt 1 (2 ^ (-k).toNat)

/-- IEEE-754 binary64 rounding (round to nearest, ties to even) of a
non-negative rational in the normal range: the unique double every
correctly rounded CPython float operation returns on exact operands.  The
exponent `e` is `⌊log2 x⌋`, the mantissa is `x · 2^(52-e)` rounded to the
nearest integer with ties to even. -/
def f64round (x : ℚ) : ℚ :=
  if qble x 0 then 0
  else
    let p := x.num.toNat
    let q := x.den
    let e : ℤ := (nlog2 p : ℤ) - (nlog2 q : ℤ) -
      (if (q : ℤ) * 2 ^ nlog2 p ≤ (p : ℤ) * 2 ^ nlog2 q then 0 else 1)
    let scaled := qmul x (pow2q (52 - e))
    let n := scaled.num / (scaled.den : ℤ)
    let r := qsub scaled (Rat.divInt n 1)
    let m := if Rat.blt r (Rat.divInt 1 2) then n
             else if Rat.blt (Rat.divInt 1 2) r then n + 1
             else if n % 2 = 0 then n else n + 1
    qmul (Rat.divInt m 1) (pow2q (e - 52))

/-- The exact (real-number) combined slot score
`time_score + 10 - min(|slot.duration - duration| / 30, 10)` — the value
the score expressions of scheduler.py lines 80–82 denote over the
rationals, before any float rounding. -/
def exact_score (duration : Nat) (slot : FreeSlot) : ℚ :=
  let ts : ℚ := Rat.divInt (time_score (slot.start / 60) : ℕ) 1
  let diff : ℕ := ((slot.duration : ℤ) - duration).natAbs
  qadd ts (qsub (Rat.divInt 10 1) (minq (Rat.divInt (diff : ℕ) 30) (Rat.divInt 10 1)))

/-- The float slot score the program computes (scheduler.py lines 64–82):
`abs(slot.duration - duration)` is an exact Python int, `/ 30` is float
true division (correctly rounded), `min(d, 10)` is an exact comparison
returning an argument, `10 - m` and `time_score + s` are float operations,
each correctly rounded. -/
def fscore (duration : Nat) (slot : FreeSlot) : ℚ :=
  let ts : ℚ := Rat.divInt (time_score (slot.start / 60) : ℕ) 1
  let diff : ℕ := ((slot.duration : ℤ) - duration).natAbs
  let d := f64round (Rat.divInt (diff : ℕ) 30)
  let m := minq d (Rat.divInt 10 1)
  let s := f64round (qsub (Rat.divInt 10 1) m)
  f64round (qadd ts s)

/-- The running-maximum selection of `max(scored_slots, key=...)`
(scheduler.py line 90): the Python `max` replaces the champion only on a
strictly greater float score, so the first slot with the maximal float
score wins. -/
def pick_best_slot (duration : Nat) (best : FreeSlot) :
    List FreeSlot → FreeSlot
  | [] => best
  | s :: rest =>
    if fscore duration best < fscore duration s then
      pick_best_slot duration s rest
    else
      pick_best_slot duration best rest

/-- The slot-ranking part of `find_best_time_slot` (scheduler.py lines
56–91): `None` on an empty slot list, otherwise the slot with the best
float score. -/
def rank_best_slot (duration : Nat) : List FreeSlot → Option FreeSlot
  | [] => none
  | s :: rest => some (pick_best_slot duration s rest)

/-- The runtime type of a stored due date: a `datetime` object (what
app.py writes and Postgres hands back) or an ISO string (the only form
scheduler.py converts with `fromisoformat`).  Both carry the timestamp in
minutes. -/
inductive DueDate where
  | dt (ts : Int)
  | iso (ts : Int)
  deriving DecidableEq, Repr

/-- The timestamp a due date denotes, independent of its runtime type. -/
def due_ts : DueDate → Int
  | DueDate.dt ts => ts
  | DueDate.iso ts => ts

/-- A row of the `tasks` table as the scheduler sees it. -/
structure Task where
  task_id : Nat
  priority : String
  due_date : Option DueDate
  estimated_duration : Option Nat
  scheduled_date : Option Int
  is_completed : Bool
  deriving DecidableEq, Repr

/-- The `priority_weights` dictionary lookup with default 25
(scheduler.py lines 11–18). -/
def priority_base (p : String) : Nat :=
  if p = "Urgent" then 100
  else if p = "High" then 75
  else if p = "Medium" then 50
  else if p = "Low" then 25
  else 25

/-- `(due_date - datetime.now()).days` (scheduler.py line 26): Python
`timedelta.days` floors, and Euclidean `/` equals floor division for the
positive divisor 1440. -/
def days_until_due (due now : Int) : Int := (due - now) / 1440

/-- The urgency-bonus ladder of `calculate_priority_score`
(scheduler.py lines 28–44). -/
def urgency_bonus (d : Int) : Nat :=
  if d < 0 then 50
  else if d = 0 then 40
  else if d = 1 then 30
  else if d ≤ 3 then 20
  else if d ≤ 7 then 10
  else 0

/-- `calculate_priority_score(task)` (scheduler.py lines 9–48), with the
ambient `datetime.now()` made an explicit `now` parameter.  On this path
line 24 converts a string due date with `fromisoformat` but never calls
`.date()`, so both runtime types reach the same `datetime` subtraction
and no exception is possible. -/
def calculate_priority_score (now : Int) (task : Task) : Nat :=
  match task.due_date with
  | none => priority_base task.priority
  | some due =>
    priority_base task.priority + urgency_bonus (days_until_due (due_ts due) now)

/-- `datetime.now().date()` / `due_date.date()`: the day number of a
timestamp in minutes. -/
def date_of (ts : Int) : Int := ts / 1440

/-- `date.weekday()` with day 0 a Monday. -/
def weekday (d : Int) : Nat := (d % 7).toNat

/-- `find_best_time_slot(task, day_of_week)` (scheduler.py lines 51–91):
the estimated duration of the task (default 60) is used both to filter
free slots and to score them.  `classes_by_day` stands for the storage
collaborator `get_classes_by_day`. -/
def find_best_time_slot (classes_by_day : Nat → List ClassSession)
    (task : Task) (day_of_week : Nat) : Option FreeSlot :=
  let duration := task.estimated_duration.getD 60
  rank_best_slot duration (get_free_slots (classes_by_day day_of_week) duration)

/-- The day offsets tried for one task by `auto_schedule_tasks`
(scheduler.py lines 116–127): line 119 converts a due date to a `date`
only when it is a string, so for a string due date
`max_date = min(due.date(), today + 7)` and the offsets are
`range((max_date - today).days + 1)`, while for a `datetime` due date
line 122 evaluates `min(datetime, date)`, which raises `TypeError`;
without a due date `max_date = today + 7`. -/
def search_offsets (today : Int) (task : Task) : Except String (List Nat) :=
  match task.due_date with
  | some (DueDate.dt _) => Except.error "TypeError"
  | some (DueDate.iso ts) =>
    let max_date : Int := min (date_of ts) (today + 7)
    Except.ok (List.range (max_date - today + 1).toNat)
  | none => Except.ok (List.range (today + 7 - today + 1).toNat)

/-- A `ScheduleAssignment` as committed by `schedule_task` and appended to
the `scheduled` result list (scheduler.py lines 141–153). -/
structure Assignment where
  task_id : Nat
  date : Int
  start : Nat
  stop : Nat
  deriving DecidableEq, Repr

/-- A notification record restricted to the fields the scheduling core
sets: the type tag and the optional related task id. -/
structure Notification where
  ntype : String
  related_task_id : Option Nat
  deriving DecidableEq, Repr

/-- The inner day loop for one task (scheduler.py lines 127–156): the
first day offset whose `find_best_time_slot` is non-`None` wins. -/
def first_slot_day (classes_by_day : Nat → List ClassSession) (task : Task)
    (today : Int) : List Nat → Option (Nat × FreeSlot)
  | [] => none
  | off :: rest =>
    match find_best_time_slot classes_by_day task (weekday (today + off)) with
    | some slot => some (off, slot)
    | none => first_slot_day classes_by_day task today rest

/-- Scheduling of a single task: the horizon computation either raises
(`datetime` due date) or yields the offsets; the first offset with a slot
commits an assignment with `end = start + duration` as a time of day. -/
def try_schedule (classes_by_day : Nat → List ClassSession) (today : Int)
    (task : Task) : Except String (Option Assignment) :=
  match search_offsets today task with
  | Except.error e => Except.error e
  | Except.ok offs =>
    match first_slot_day classes_by_day task today offs with
    | some offslot =>
      let duration := task.estimated_duration.getD 60
      Except.ok (some ⟨task.task_id, today + offslot.1,
        offslot.2.start, (offslot.2.start + duration) % 1440⟩)
    | none => Except.ok none

/-- The committed assignment of one task, `none` both when no slot exists
and when the task raised (used to describe crash-free runs). -/
def try_schedule_res (classes_by_day : Nat → List ClassSession) (today : Int)
    (task : Task) : Option Assignment :=
  match try_schedule classes_by_day today task with
  | Except.ok r => r
  | Except.error _ => none

/-- The observable outcome of one `auto_schedule_tasks` invocation: the
assignments committed through `schedule_task` (they persist even when a
later task raises — there is no rollback), the notifications created, and
the exception that escaped, if any. -/
structure RunOutcome where
  scheduled : List Assignment
  notifications : List Notification
  error : Option String
  deriving DecidableEq, Repr

/-- The per-task loop of `auto_schedule_tasks` (scheduler.py lines
112–166): tasks in order; a raised exception aborts the loop at once
(nothing later runs), a scheduled task appends an assignment, an
unschedulable task a `schedule_conflict` notification. -/
def schedule_loop (classes_by_day : Nat → List ClassSession) (today : Int) :
    List Task → RunOutcome
  | [] => ⟨[], [], none⟩
  | t :: rest =>
    match try_schedule classes_by_day today t with
    | Except.error e => ⟨[], [], some e⟩
    | Except.ok (some a) =>
      let r := schedule_loop classes_by_day today rest
      ⟨a :: r.scheduled, r.notifications, r.error⟩
    | Except.ok none =>
      let r := schedule_loop classes_by_day today rest
      ⟨r.scheduled, ⟨"schedule_conflict", some t.task_id⟩ :: r.notifications, r.error⟩

/-- `sorted(unscheduled_tasks, key=calculate_priority_score, reverse=True)`
(scheduler.py lines 104–106): stable descending sort by score. -/
def sort_tasks (now : Int) (tasks : List Task) : List Task :=
  List.insertionSort
    (fun a b => calculate_priority_score now b ≤ calculate_priority_score now a)
    tasks

/-- `auto_schedule_tasks` (scheduler.py lines 94–168): filter to
incomplete (`get_all_tasks(include_completed=False)`) unscheduled tasks,
sort by priority score (which never raises), then schedule each in turn
until the list ends or a task raises. -/
def auto_schedule_tasks (classes_by_day : Nat → List ClassSession)
    (now : Int) (tasks : List Task) : RunOutcome :=
  let unscheduled :=
    (tasks.filter (fun t => !t.is_completed)).filter
      (fun t => t.scheduled_date.isNone)
  if unscheduled.isEmpty then ⟨[], [], none⟩
  else schedule_loop classes_by_day (date_of now) (sort_tasks now unscheduled)

/-- A conflict record `{day, class1, class2}` of
`detect_scheduling_conflicts`, with the day kept as its index 0–6. -/
structure Conflict where
  day : Nat
  class1 : ClassSession
  class2 : ClassSession
  deriving DecidableEq, Repr

/-- The adjacent-pair overlap scan of `detect_scheduling_conflicts`
(scheduler.py lines 232–242) over the sorted class list of one day. -/
def adjacent_overlaps (day : Nat) : List ClassSession → List Conflict
  | a :: b :: rest =>
    (if b.start_time < a.end_time then [⟨day, a, b⟩] else []) ++
      adjacent_overlaps day (b :: rest)
  | _ => []

/-- `detect_scheduling_conflicts` (scheduler.py lines 220–254): each of
the 7 days independently, classes sorted by start time, adjacent pairs
with `current.end > next.start` reported in day order. -/
def detect_scheduling_conflicts (classes_by_day : Nat → List ClassSession) :
    List Conflict :=
  (List.range 7).flatMap
    (fun day => adjacent_overlaps day (sort_classes (classes_by_day day)))

/-- The notifications created by `detect_scheduling_conflicts`
(scheduler.py lines 245–252): one `schedule_conflict` per conflict, with
no related ids attached. -/
def conflict_notifications (classes_by_day : Nat → List ClassSession) :
    List Notification :=
  (detect_scheduling_conflicts classes_by_day).map
    (fun _ => ⟨"schedule_conflict", none⟩)

instance {ε α : Type} [DecidableEq ε] [DecidableEq α] :
    DecidableEq (Except ε α) := fun x y =>
  match x, y with
  | Except.error a, Except.error b =>
    match decEq a b with
    | isTrue h => isTrue (h ▸ rfl)
    | isFalse h => isFalse (fun hh => h (Except.error.inj hh))
  | Except.ok a, Except.ok b =>
    match decEq a b with
    | isTrue h => isTrue (h ▸ rfl)
    | isFalse h => isFalse (fun hh => h (Except.ok.inj hh))
  | Except.error _, Except.ok _ => isFalse (fun hh => Except.noConfusion hh)
  | Except.ok _, Except.error _ => isFalse (fun hh => Except.noConfusion hh)

-- Sanity checks of the embedding on the worked example of the spec
-- (classes 09:00–10:30 and 13:00–14:00, duration 60).
example :
    get_free_slots [⟨1, 540, 630⟩, ⟨2, 780, 840⟩] 60 =
      [⟨480, 540, 60⟩, ⟨630, 780, 150⟩, ⟨840, 1260, 420⟩] := by decide

set_option maxRecDepth 100000 in
example :
    rank_best_slot 60 [⟨480, 540, 60⟩, ⟨630, 780, 150⟩, ⟨840, 1260, 420⟩] =
      some ⟨630, 780, 150⟩ := by decide

example :
    calculate_priority_score 600
      ⟨2, "Urgent", some (DueDate.dt 1200), some 60, none, false⟩ = 140 := by
  decide

/-- The urgency bonus computed by the code equals the cascade stated with a
truncated day difference: the overdue branch fires exactly when `due < now`,
and on all later branches the difference is non-negative, where truncated
and floored day differences coincide. -/
theorem urgency_bonus_cascade (due now : Int) :
    urgency_bonus (days_until_due due now) =
      (if due < now then 50
       else if (due - now).tdiv 1440 = 0 then 40
       else if (due - now).tdiv 1440 = 1 then 30
       else if 2 ≤ (due - now).tdiv 1440 ∧ (due - now).tdiv 1440 ≤ 3 then 20
       else if 4 ≤ (due - now).tdiv 1440 ∧ (due - now).tdiv 1440 ≤ 7 then 10
       else 0) := by
  unfold urgency_bonus days_until_due
  by_cases hlt : due < now
  · have hd : (due - now) / 1440 < 0 := by omega
    simp [hlt, hd]
  · have h0 : (0 : Int) ≤ due - now := by omega
    have ht : (due - now).tdiv 1440 = (due - now) / 1440 :=
      Int.tdiv_eq_ediv h0 (by omega)
    have hnn : (0 : Int) ≤ (due - now) / 1440 := by omega
    rw [ht]
    split_ifs <;> omega

/-- C5: for every task and reference time `now`, the Priority Scorer
returns base + bonus, with base 100/75/50/25 for Urgent/High/Medium/Low and
25 for any other priority, and bonus 0 without a due date, +50 when
`due < now`, and otherwise fixed by the truncated day difference `d`:
+40 for d = 0, +30 for d = 1, +20 for 2 ≤ d ≤ 3, +10 for 4 ≤ d ≤ 7, else
+0 — for both runtime types of the stored due date, since the scorer
converts a string with `fromisoformat` and subtracts two datetimes. -/
theorem claim_C5_priority_score (task : Task) (now : Int) :
    calculate_priority_score now task =
      (if task.priority = "Urgent" then 100
       else if task.priority = "High" then 75
       else if task.priority = "Medium" then 50
       else if task.priority = "Low" then 25
       else 25) +
      (match task.due_date with
       | none => 0
       | some due =>
         if due_ts due < now then 50
         else if (due_ts due - now).tdiv 1440 = 0 then 40
         else if (due_ts due - now).tdiv 1440 = 1 then 30
         else if 2 ≤ (due_ts due - now).tdiv 1440 ∧
             (due_ts due - now).tdiv 1440 ≤ 3 then 20
         else if 4 ≤ (due_ts due - now).tdiv 1440 ∧
             (due_ts due - now).tdiv 1440 ≤ 7 then 10
         else 0) := by
  unfold calculate_priority_score
  cases h : task.due_date with
  | none => simp [priority_base]
  | some due =>
    dsimp only
    rw [urgency_bonus_cascade]
    rfl

/-- C6 as stated is false for the due-date form the repo stores: a task
whose due date is a `datetime` reaches `min(datetime, date)` at
scheduler.py line 122, which raises `TypeError`, so no day offsets are
searched at all and the whole run aborts. -/
theorem claim_C6_counterexample :
    search_offsets 0
        ⟨5, "Low", some (DueDate.dt 3480), some 60, none, false⟩ =
      Except.error "TypeError" ∧
    (auto_schedule_tasks (fun _ => []) 600
        [⟨5, "Low", some (DueDate.dt 3480), some 60, none, false⟩]).error =
      some "TypeError" := by
  constructor
  · rfl
  · decide

/-- C6 amended: a task whose due date is an ISO string — the only form
scheduler.py converts — searches exactly the day offsets from today
through `min(due date, today + 7)` inclusive; a task whose due date is a
`datetime` (the type the repo stores) raises `TypeError` before any
offset is searched; a task without a due date searches exactly offsets
0 through 7, independently of the time-of-day component of `now`. -/
theorem claim_C6_search_horizon (today : Int) (t : Task) :
    (∀ k : Int, t.due_date = some (DueDate.iso k) →
      ∃ offs, search_offsets today t = Except.ok offs ∧
        ∀ off : Nat, (off ∈ offs ↔
          (off : Int) ≤ min (date_of k) (today + 7) - today)) ∧
    (∀ k : Int, t.due_date = some (DueDate.dt k) →
      search_offsets today t = Except.error "TypeError") ∧
    (t.due_date = none →
      search_offsets today t = Except.ok (List.range 8) ∧
      ∀ now1 now2 : Int,
        search_offsets (date_of now1) t = search_offsets (date_of now2) t) := by
  refine ⟨?_, ?_, ?_⟩
  · intro k hdue
    refine ⟨List.range (min (date_of k) (today + 7) - today + 1).toNat, ?_, ?_⟩
    · simp only [search_offsets, hdue]
    · intro off
      rw [List.mem_range]
      omega
  · intro k hdue
    simp only [search_offsets, hdue]
  · intro hnone
    have key : ∀ d : Int, search_offsets d t = Except.ok (List.range 8) := by
      intro d
      simp only [search_offsets, hnone]
      have h8 : (d + 7 - d + 1).toNat = 8 := by omega
      rw [h8]
    exact ⟨key today, fun n1 n2 => by rw [key, key]⟩

/-- Concrete instantiation of the horizon theorem: a string due date on
day 2 yields offsets with 0 included, a datetime due date raises, and no
due date yields exactly offsets 0–7. -/
theorem claim_C6_search_horizon_witness :
    (0 ∈ List.range ((min (date_of 3480) (0 + 7) - 0 + 1)).toNat) ∧
    search_offsets 0
        ⟨5, "Low", some (DueDate.dt 3480), some 60, none, false⟩ =
      Except.error "TypeError" ∧
    search_offsets 0 ⟨6, "Low", none, some 60, none, false⟩ =
      Except.ok (List.range 8) := by
  have h1 := (claim_C6_search_horizon 0
    ⟨5, "Low", some (DueDate.iso 3480), some 60, none, false⟩).1 3480 rfl
  have h2 := (claim_C6_search_horizon 0
    ⟨5, "Low", some (DueDate.dt 3480), some 60, none, false⟩).2.1 3480 rfl
  have h3 := (claim_C6_search_horizon 0
    ⟨6, "Low", none, some 60, none, false⟩).2.2 rfl
  obtain ⟨offs, hoffs, hmem⟩ := h1
  refine ⟨?_, h2, h3.1⟩
  have hoffs_eq : offs =
      List.range ((min (date_of 3480) (0 + 7) - 0 + 1)).toNat := by
    have : search_offsets 0
        ⟨5, "Low", some (DueDate.iso 3480), some 60, none, false⟩ =
        Except.ok (List.range ((min (date_of 3480) (0 + 7) - 0 + 1)).toNat) := by
      simp only [search_offsets]
    rw [this] at hoffs
    exact (Except.ok.inj hoffs).symm
  rw [← hoffs_eq]
  exact (hmem 0).mpr (by decide)

/-- The running maximum of `pick_best_slot` returns the first slot of
`best :: l` attaining the maximal float score: every slot strictly before
it in that list scores strictly less, and no slot scores more. -/
theorem pick_best_slot_spec (duration : Nat) (l : List FreeSlot) :
    ∀ best : FreeSlot,
      ∃ l1 l2, best :: l = l1 ++ pick_best_slot duration best l :: l2 ∧
        (∀ s ∈ best :: l, fscore duration s ≤
          fscore duration (pick_best_slot duration best l)) ∧
        (∀ s ∈ l1, fscore duration s <
          fscore duration (pick_best_slot duration best l)) := by
  induction l with
  | nil =>
    intro best
    refine ⟨[], [], rfl, ?_, ?_⟩
    · intro x hx
      have hxb : x = best := by simpa using hx
      rw [hxb]
      exact le_of_eq rfl
    · intro x hx
      exact absurd hx (List.not_mem_nil x)
  | cons s rest ih =>
    intro best
    by_cases h : fscore duration best < fscore duration s
    · have hpick : pick_best_slot duration best (s :: rest) =
          pick_best_slot duration s rest := by
        simp [pick_best_slot, h]
      rw [hpick]
      obtain ⟨l1, l2, heq, hle, hlt⟩ := ih s
      have hs_le_pick : fscore duration s ≤
          fscore duration (pick_best_slot duration s rest) :=
        hle s (List.mem_cons_self _ _)
      refine ⟨best :: l1, l2, ?_, ?_, ?_⟩
      · rw [List.cons_append, ← heq]
      · intro x hx
        rcases List.mem_cons.mp hx with hxb | hx'
        · rw [hxb]
          exact le_of_lt (lt_of_lt_of_le h hs_le_pick)
        · exact hle x hx'
      · intro x hx
        rcases List.mem_cons.mp hx with hxb | hx'
        · rw [hxb]
          exact lt_of_lt_of_le h hs_le_pick
        · exact hlt x hx'
    · have hpick : pick_best_slot duration best (s :: rest) =
          pick_best_slot duration best rest := by
        simp [pick_best_slot, h]
      rw [hpick]
      obtain ⟨l1, l2, heq, hle, hlt⟩ := ih best
      have hs_le : fscore duration s ≤ fscore duration best :=
        le_of_not_lt h
      have hbest_le : fscore duration best ≤
          fscore duration (pick_best_slot duration best rest) :=
        hle best (List.mem_cons_self _ _)
      cases l1 with
      | nil =>
        rw [List.nil_append] at heq
        have hbr : best = pick_best_slot duration best rest :=
          ((List.cons.injEq _ _ _ _).mp heq).1
        refine ⟨[], s :: rest, ?_, ?_, ?_⟩
        · rw [List.nil_append, ← hbr]
        · intro x hx
          rw [← hbr]
          rcases List.mem_cons.mp hx with hxb | hx'
          · exact le_of_eq (by rw [hxb])
          · rcases List.mem_cons.mp hx' with hxs | hx''
            · rw [hxs]; exact hs_le
            · have hx3 := hle x (List.mem_cons_of_mem _ hx'')
              rw [← hbr] at hx3
              exact hx3
        · intro x hx
          exact absurd hx (List.not_mem_nil x)
      | cons y l1' =>
        have hby : best = y := ((List.cons.injEq _ _ _ _).mp heq).1
        have hrest : rest = l1' ++ pick_best_slot duration best rest :: l2 :=
          ((List.cons.injEq _ _ _ _).mp heq).2
        have hbest_lt : fscore duration best <
            fscore duration (pick_best_slot duration best rest) := by
          have h1 := hlt y (List.mem_cons_self _ _)
          rw [← hby] at h1
          exact h1
        refine ⟨best :: s :: l1', l2, ?_, ?_, ?_⟩
        · simp only [List.cons_append]
          rw [← hrest]
        · intro x hx
          rcases List.mem_cons.mp hx with hxb | hx'
          · rw [hxb]; exact hbest_le
          · rcases List.mem_cons.mp hx' with hxs | hx''
            · rw [hxs]; exact le_trans hs_le hbest_le
            · exact hle x (List.mem_cons_of_mem _ hx'')
        · intro x hx
          rcases List.mem_cons.mp hx with hxb | hx'
          · rw [hxb]; exact hbest_lt
          · rcases List.mem_cons.mp hx' with hxs | hx''
            · rw [hxs]; exact lt_of_le_of_lt hs_le hbest_lt
            · exact hlt x (List.mem_cons_of_mem _ hx'')

set_option maxRecDepth 1000000 in
/-- C9 as stated is false: the two slots 08:00–09:08 (68m) and
18:00–20:38 (158m) — both produced by the Free-Slot Finder from the
well-formed class list 09:08–18:00, 20:38–20:50 — have exactly equal
combined scores (both 2 + 10 − 68/30 = 5 + 10 − 158/30 = 176/15), yet the
ranker returns the second slot, not the first: the float duration-fit
terms round differently (11.733333333333333 versus 11.733333333333334),
so the Python `max` sees a strictly greater later score. -/
theorem claim_C9_counterexample :
    exact_score 60 ⟨480, 548, 68⟩ = exact_score 60 ⟨1080, 1238, 158⟩ ∧
    (⟨480, 548, 68⟩ : FreeSlot) ≠ ⟨1080, 1238, 158⟩ ∧
    get_free_slots [⟨1, 548, 1080⟩, ⟨2, 1238, 1250⟩] 60 =
      [⟨480, 548, 68⟩, ⟨1080, 1238, 158⟩] ∧
    fscore 60 ⟨480, 548, 68⟩ < fscore 60 ⟨1080, 1238, 158⟩ ∧
    rank_best_slot 60 [⟨480, 548, 68⟩, ⟨1080, 1238, 158⟩] =
      some ⟨1080, 1238, 158⟩ := by
  decide

/-- C9 amended: the Slot Ranker returns `none` iff the input slot list is
empty; on a non-empty list it returns a slot whose program-computed
binary64 float score is maximal, the first such slot in input order.
Because the duration-fit term is rounded to binary64, two slots with
equal exact combined scores can receive distinct float scores, so the
returned slot is the first float-score maximum, which can be a later slot
than the first exact-score maximum. -/
theorem claim_C9_slot_ranker (duration : Nat) (slots : List FreeSlot) :
    (rank_best_slot duration slots = none ↔ slots = []) ∧
    ∀ s, rank_best_slot duration slots = some s →
      ∃ l1 l2, slots = l1 ++ s :: l2 ∧
        (∀ x ∈ slots, fscore duration x ≤ fscore duration s) ∧
        (∀ x ∈ l1, fscore duration x < fscore duration s) := by
  cases slots with
  | nil =>
    refine ⟨by simp [rank_best_slot], ?_⟩
    intro s hs
    simp [rank_best_slot] at hs
  | cons a rest =>
    refine ⟨by simp [rank_best_slot], ?_⟩
    intro s hs
    have hps : pick_best_slot duration a rest = s := by
      simpa [rank_best_slot] using hs
    obtain ⟨l1, l2, heq, hle, hlt⟩ := pick_best_slot_spec duration rest a
    rw [hps] at heq hle hlt
    exact ⟨l1, l2, heq, hle, hlt⟩

set_option maxRecDepth 1000000 in
/-- Concrete instantiation of the Slot Ranker theorem: on the empty list
it returns `none`, and on the worked-example list the selected
10:30–13:00 slot scores no less than the 08:00–09:00 slot. -/
theorem claim_C9_slot_ranker_witness :
    (rank_best_slot 60 ([] : List FreeSlot) = none ↔
      ([] : List FreeSlot) = []) ∧
    fscore 60 (⟨480, 540, 60⟩ : FreeSlot) ≤
      fscore 60 (⟨630, 780, 150⟩ : FreeSlot) := by
  constructor
  · exact (claim_C9_slot_ranker 60 []).1
  · obtain ⟨l1, l2, heq, hle, hlt⟩ :=
      (claim_C9_slot_ranker 60
        [⟨480, 540, 60⟩, ⟨630, 780, 150⟩, ⟨840, 1260, 420⟩]).2
        ⟨630, 780, 150⟩ (by decide)
    exact hle ⟨480, 540, 60⟩ (by decide)

/-- Membership characterisation of the adjacent-pair scan: a conflict
record is produced for one day exactly when its two classes are adjacent in
the scanned list and the first one ends after the second one starts. -/
theorem mem_adjacent_overlaps (day : Nat) (cd : Nat) (c1 c2 : ClassSession) :
    ∀ l : List ClassSession,
      (Conflict.mk cd c1 c2 ∈ adjacent_overlaps day l ↔
        cd = day ∧ c2.start_time < c1.end_time ∧
          ∃ l1 l2, l = l1 ++ c1 :: c2 :: l2)
  | [] => by
    constructor
    · intro h
      exact absurd h (List.not_mem_nil _)
    · rintro ⟨-, -, l1, l2, heq⟩
      have hlen := congrArg List.length heq
      simp [List.length_append] at hlen
      omega
  | [a] => by
    constructor
    · intro h
      exact absurd h (List.not_mem_nil _)
    · rintro ⟨-, -, l1, l2, heq⟩
      have hlen := congrArg List.length heq
      simp [List.length_append] at hlen
      omega
  | a :: b :: rest => by
    have hrec := mem_adjacent_overlaps day cd c1 c2 (b :: rest)
    constructor
    · intro h
      rcases List.mem_append.mp h with h1 | h2
      · by_cases hov : b.start_time < a.end_time
        · rw [if_pos hov] at h1
          have hc := List.mem_singleton.mp h1
          injection hc with e1 e2 e3
          subst e1; subst e2; subst e3
          exact ⟨rfl, hov, [], rest, rfl⟩
        · rw [if_neg hov] at h1
          exact absurd h1 (List.not_mem_nil _)
      · obtain ⟨hday, hov, l1, l2, heq⟩ := hrec.mp h2
        exact ⟨hday, hov, a :: l1, l2, by rw [List.cons_append, heq]⟩
    · rintro ⟨hday, hov, l1, l2, heq⟩
      apply List.mem_append.mpr
      cases l1 with
      | nil =>
        rw [List.nil_append] at heq
        injection heq with e1 etl
        injection etl with e2 e3
        subst e1; subst e2; subst e3; subst hday
        left
        rw [if_pos hov]
        exact List.mem_singleton.mpr rfl
      | cons y l1' =>
        injection heq with e1 etl
        right
        exact hrec.mpr ⟨hday, hov, l1', l2, etl⟩

/-- C8: the Conflict Detector reports, for each day 0–6 independently, a
record `{day, classA, classB}` exactly for the adjacent pairs of the
day list sorted by start time whose first class ends strictly after the
second starts; on two Monday classes 09:00–10:00 and 09:30–10:30 it
reports exactly the one record for that pair. -/
theorem claim_C8_conflict_detector :
    (∀ (f : Nat → List ClassSession) (cd : Nat) (c1 c2 : ClassSession),
      Conflict.mk cd c1 c2 ∈ detect_scheduling_conflicts f ↔
        cd < 7 ∧ c2.start_time < c1.end_time ∧
          ∃ l1 l2, sort_classes (f cd) = l1 ++ c1 :: c2 :: l2) ∧
    detect_scheduling_conflicts
        (fun d => if d = 0 then [⟨1, 540, 600⟩, ⟨2, 570, 630⟩] else []) =
      [⟨0, ⟨1, 540, 600⟩, ⟨2, 570, 630⟩⟩] := by
  constructor
  · intro f cd c1 c2
    unfold detect_scheduling_conflicts
    rw [List.mem_flatMap]
    constructor
    · rintro ⟨day, hday, hmem⟩
      obtain ⟨hcd, hov, l1, l2, heq⟩ := (mem_adjacent_overlaps day cd c1 c2 _).mp hmem
      subst hcd
      exact ⟨List.mem_range.mp hday, hov, l1, l2, heq⟩
    · rintro ⟨hcd, hov, l1, l2, heq⟩
      exact ⟨cd, List.mem_range.mpr hcd,
        (mem_adjacent_overlaps cd cd c1 c2 _).mpr ⟨rfl, hov, l1, l2, heq⟩⟩
  · decide

/-- Concrete instantiation of the Conflict Detector theorem: the Monday
pair of the worked example is reported. -/
theorem claim_C8_conflict_detector_witness :
    Conflict.mk 0 ⟨1, 540, 600⟩ ⟨2, 570, 630⟩ ∈
      detect_scheduling_conflicts
        (fun d => if d = 0 then [⟨1, 540, 600⟩, ⟨2, 570, 630⟩] else []) :=
  (claim_C8_conflict_detector.1 _ 0 _ _).mpr
    ⟨by omega, by decide, [], [], by decide⟩

/-- The head of the cursor trace is the initial cursor value. -/
theorem cursor_trace_head :
    ∀ (l : List ClassSession) (cur : Nat), (cursor_trace cur l).head? = some cur
  | [], _ => rfl
  | _ :: _, _ => rfl

/-- The cursor never decreases provided every processed class ends no
earlier than the cursor value in force when it is reached. -/
theorem cursor_trace_mono :
    ∀ (l : List ClassSession) (cur : Nat),
      (∀ c, l.head? = some c → cur ≤ c.end_time) →
      List.Chain' (fun a b => a.end_time ≤ b.end_time) l →
      List.Chain' (· ≤ ·) (cursor_trace cur l)
  | [], cur, _, _ => List.chain'_singleton cur
  | c :: rest, cur, hhead, hchain => by
    rw [show cursor_trace cur (c :: rest) = cur :: cursor_trace c.end_time rest from rfl]
    apply List.chain'_cons'.mpr
    constructor
    · intro y hy
      rw [cursor_trace_head rest c.end_time] at hy
      have hyc : c.end_time = y := by simpa using hy
      rw [← hyc]
      exact hhead c rfl
    · apply cursor_trace_mono rest c.end_time
      · intro c' hc'
        exact (List.chain'_cons'.mp hchain).1 c' (Option.mem_def.mpr hc')
      · exact (List.chain'_cons'.mp hchain).2

/-- Every slot emitted by the walk is non-degenerate: a gap that would be
negative (class start or window end before the cursor) emits nothing, so
every emitted slot satisfies `start ≤ stop`. -/
theorem free_slots_walk_start_le_stop (duration : Nat) :
    ∀ (l : List ClassSession) (cur : Nat) (slot : FreeSlot),
      slot ∈ free_slots_walk duration cur l → slot.start ≤ slot.stop
  | [], cur, slot, h => by
    dsimp only [free_slots_walk] at h
    by_cases hc : (duration : Int) ≤ (day_end : Int) - cur
    · rw [if_pos hc] at h
      have h1 : slot = ⟨cur, day_end, ((day_end : Int) - cur).toNat⟩ := by
        simpa using h
      rw [h1]
      show cur ≤ day_end
      omega
    · rw [if_neg hc] at h
      exact absurd h (List.not_mem_nil _)
  | c :: rest, cur, slot, h => by
    dsimp only [free_slots_walk] at h
    rcases List.mem_append.mp h with h1 | h2
    · by_cases hc : (duration : Int) ≤ (c.start_time : Int) - cur
      · rw [if_pos hc] at h1
        have h1e : slot = ⟨cur, c.start_time, ((c.start_time : Int) - cur).toNat⟩ := by
          simpa using h1
        rw [h1e]
        show cur ≤ c.start_time
        omega
      · rw [if_neg hc] at h1
        exact absurd h1 (List.not_mem_nil _)
    · exact free_slots_walk_start_le_stop duration rest c.end_time slot h2

/-- C4 as stated is false: on a sorted class list containing a nested
interval (09:00–12:00 followed by 10:00–11:00) the cursor moves backwards
from 720 to 660, because the walk sets it unconditionally to the end time
of each class. -/
theorem claim_C4_counterexample :
    sort_classes [⟨1, 540, 720⟩, ⟨2, 600, 660⟩] = [⟨1, 540, 720⟩, ⟨2, 600, 660⟩] ∧
    walk_cursors [⟨1, 540, 720⟩, ⟨2, 600, 660⟩] = [480, 720, 660] ∧
    ¬ List.Chain' (· ≤ ·) (walk_cursors [⟨1, 540, 720⟩, ⟨2, 600, 660⟩]) := by
  refine ⟨by decide, by decide, ?_⟩
  intro h
  rw [show walk_cursors [⟨1, 540, 720⟩, ⟨2, 600, 660⟩] = [480, 720, 660] from by decide] at h
  exact absurd ((List.chain'_cons'.mp ((List.chain'_cons'.mp h).2)).1 660 rfl)
    (by omega)

/-- C4 amended: the cursor is set to the end time of each class, so it
never decreases provided every class of the list ends no earlier than the
window start and the end times are non-decreasing in sorted order (both
hold for well-formed, pairwise non-overlapping input inside the window);
and, unconditionally, a gap that would be negative never produces a slot —
every emitted slot has `start ≤ stop`. -/
theorem claim_C4_amended (classes : List ClassSession) (duration : Nat) :
    ((∀ c ∈ classes, day_start ≤ c.end_time) →
      List.Chain' (fun a b => a.end_time ≤ b.end_time) (sort_classes classes) →
      List.Chain' (· ≤ ·) (walk_cursors classes)) ∧
    ∀ slot ∈ get_free_slots classes duration, slot.start ≤ slot.stop := by
  constructor
  · intro hend hchain
    unfold walk_cursors
    apply cursor_trace_mono
    · intro c hc
      apply hend
      have hcm : c ∈ sort_classes classes :=
        List.mem_of_mem_head? (Option.mem_def.mpr hc)
      have hperm : List.Perm (sort_classes classes) classes :=
        List.perm_insertionSort _ classes
      exact hperm.mem_iff.mp hcm
    · exact hchain
  · intro slot hs
    exact free_slots_walk_start_le_stop duration (sort_classes classes) day_start slot hs

/-- Concrete instantiation of the amended C4 theorem: on the class
09:00–10:30 the cursor trace is monotone and the first emitted slot is
non-degenerate. -/
theorem claim_C4_amended_witness :
    List.Chain' (· ≤ ·) (walk_cursors [⟨1, 540, 630⟩]) ∧
    (⟨480, 540, 60⟩ : FreeSlot).start ≤ (⟨480, 540, 60⟩ : FreeSlot).stop := by
  have h := claim_C4_amended [⟨1, 540, 630⟩] 60
  refine ⟨h.1 (by decide) ?_, h.2 ⟨480, 540, 60⟩ (by decide)⟩
  rw [show sort_classes [⟨1, 540, 630⟩] = [⟨1, 540, 630⟩] from by decide]
  exact List.chain'_singleton _

/-- In a well-formed class list whose adjacent classes are separated
(`end ≤ next start`), the head class ends no later than every later class
starts. -/
theorem sep_le_starts (c : ClassSession) :
    ∀ rest : List ClassSession,
      (∀ x ∈ rest, x.start_time < x.end_time) →
      List.Chain' (fun a b => a.end_time ≤ b.start_time) (c :: rest) →
      ∀ c' ∈ rest, c.end_time ≤ c'.start_time
  | [], _, _, c', hc' => absurd hc' (List.not_mem_nil _)
  | b :: rest, hwf, hch, c', hc' => by
    have h1 : c.end_time ≤ b.start_time := (List.chain'_cons.mp hch).1
    rcases List.mem_cons.mp hc' with hb | hrest
    · rw [hb]
      exact h1
    · have h2 := sep_le_starts b rest
        (fun x hx => hwf x (List.mem_cons_of_mem _ hx))
        (List.chain'_cons.mp hch).2 c' hrest
      have hb_wf : b.start_time < b.end_time := hwf b (List.mem_cons_self _ _)
      omega

/-- A sorted, pairwise non-overlapping, well-formed class list has
adjacent classes separated: each ends no later than the next starts. -/
theorem sep_chain :
    ∀ l : List ClassSession,
      (∀ c ∈ l, c.start_time < c.end_time) →
      List.Chain' (fun a b => a.start_time ≤ b.start_time) l →
      List.Chain' (fun a b =>
        ¬ overlaps a.start_time a.end_time b.start_time b.end_time) l →
      List.Chain' (fun a b => a.end_time ≤ b.start_time) l
  | [], _, _, _ => List.chain'_nil
  | [a], _, _, _ => List.chain'_singleton a
  | a :: b :: rest, hwf, hs, hn => by
    rw [List.chain'_cons] at hs hn ⊢
    refine ⟨?_, sep_chain (b :: rest)
      (fun x hx => hwf x (List.mem_cons_of_mem _ hx)) hs.2 hn.2⟩
    have ha : a.start_time < a.end_time := hwf a (List.mem_cons_self _ _)
    have hb : b.start_time < b.end_time :=
      hwf b (List.mem_cons_of_mem _ (List.mem_cons_self _ _))
    have hnov1 := hn.1
    unfold overlaps at hnov1
    have hab := hs.1
    omega

/-- Duration and disjointness of the walk on separated, well-formed input,
with no hypothesis about the day window: every emitted slot is at least
the target duration long, starts at or after the cursor or after the end
of some processed class, and is disjoint from every class of the list. -/
theorem free_slots_walk_disjoint (duration : Nat) :
    ∀ (l : List ClassSession) (cur : Nat),
      (∀ c ∈ l, c.start_time < c.end_time) →
      List.Chain' (fun a b => a.end_time ≤ b.start_time) l →
      ∀ slot ∈ free_slots_walk duration cur l,
        duration ≤ slot.duration ∧
        (cur ≤ slot.start ∨ ∃ c0 ∈ l, c0.end_time ≤ slot.start) ∧
        ∀ c ∈ l, slot.stop ≤ c.start_time ∨ c.end_time ≤ slot.start
  | [], cur, _, _, slot, hs => by
    dsimp only [free_slots_walk] at hs
    by_cases hc : (duration : Int) ≤ (day_end : Int) - cur
    · rw [if_pos hc] at hs
      have h1 : slot = ⟨cur, day_end, ((day_end : Int) - cur).toNat⟩ := by
        simpa using hs
      rw [h1]
      refine ⟨by dsimp; omega, Or.inl (le_refl _), ?_⟩
      intro c hc'
      exact absurd hc' (List.not_mem_nil _)
    · rw [if_neg hc] at hs
      exact absurd hs (List.not_mem_nil _)
  | c :: rest, cur, hwf, hsep, slot, hs => by
    dsimp only [free_slots_walk] at hs
    have hwf_rest : ∀ x ∈ rest, x.start_time < x.end_time :=
      fun x hx => hwf x (List.mem_cons_of_mem _ hx)
    have hlater : ∀ c' ∈ rest, c.end_time ≤ c'.start_time :=
      sep_le_starts c rest hwf_rest hsep
    have hcwf := hwf c (List.mem_cons_self _ _)
    rcases List.mem_append.mp hs with h1 | h2
    · by_cases hgap : (duration : Int) ≤ (c.start_time : Int) - cur
      · rw [if_pos hgap] at h1
        have h1e : slot = ⟨cur, c.start_time, ((c.start_time : Int) - cur).toNat⟩ := by
          simpa using h1
        rw [h1e]
        refine ⟨by dsimp; omega, Or.inl (le_refl _), ?_⟩
        intro c' hc'
        rcases List.mem_cons.mp hc' with hcc | hcr
        · left
          rw [hcc]
        · left
          have := hlater c' hcr
          dsimp
          omega
      · rw [if_neg hgap] at h1
        exact absurd h1 (List.not_mem_nil _)
    · obtain ⟨hdur, hstart, hdisj⟩ := free_slots_walk_disjoint duration rest
        c.end_time hwf_rest ((List.chain'_cons'.mp hsep).2) slot h2
      have hce : c.end_time ≤ slot.start := by
        rcases hstart with h | ⟨c0, hc0, hc0e⟩
        · exact h
        · have := hlater c0 hc0
          have := hwf_rest c0 hc0
          omega
      refine ⟨hdur, Or.inr ⟨c, List.mem_cons_self _ _, hce⟩, ?_⟩
      intro c' hc'
      rcases List.mem_cons.mp hc' with hcc | hcr
      · right
        rw [hcc]
        exact hce
      · exact hdisj c' hcr

/-- Window bounds of the walk when the cursor starts at or before every
class start and class starts stay inside the window: every emitted slot
is at least the target duration long, starts at or after the cursor and
stops by the window end. -/
theorem free_slots_walk_spec (duration : Nat) :
    ∀ (l : List ClassSession) (cur : Nat),
      (∀ c ∈ l, c.start_time < c.end_time) →
      List.Chain' (fun a b => a.end_time ≤ b.start_time) l →
      (∀ c ∈ l, cur ≤ c.start_time) →
      (∀ c ∈ l, c.start_time ≤ day_end) →
      ∀ slot ∈ free_slots_walk duration cur l,
        duration ≤ slot.duration ∧
        cur ≤ slot.start ∧
        slot.stop ≤ day_end ∧
        ∀ c ∈ l, slot.stop ≤ c.start_time ∨ c.end_time ≤ slot.start
  | [], cur, _, _, _, _, slot, hs => by
    dsimp only [free_slots_walk] at hs
    by_cases hc : (duration : Int) ≤ (day_end : Int) - cur
    · rw [if_pos hc] at hs
      have h1 : slot = ⟨cur, day_end, ((day_end : Int) - cur).toNat⟩ := by
        simpa using hs
      rw [h1]
      refine ⟨by dsimp; omega, le_refl _, le_refl _, ?_⟩
      intro c hc'
      exact absurd hc' (List.not_mem_nil _)
    · rw [if_neg hc] at hs
      exact absurd hs (List.not_mem_nil _)
  | c :: rest, cur, hwf, hsep, hcur, hstarts, slot, hs => by
    dsimp only [free_slots_walk] at hs
    have hwf_rest : ∀ x ∈ rest, x.start_time < x.end_time :=
      fun x hx => hwf x (List.mem_cons_of_mem _ hx)
    have hlater : ∀ c' ∈ rest, c.end_time ≤ c'.start_time :=
      sep_le_starts c rest hwf_rest hsep
    rcases List.mem_append.mp hs with h1 | h2
    · by_cases hgap : (duration : Int) ≤ (c.start_time : Int) - cur
      · rw [if_pos hgap] at h1
        have h1e : slot = ⟨cur, c.start_time, ((c.start_time : Int) - cur).toNat⟩ := by
          simpa using h1
        rw [h1e]
        refine ⟨by dsimp; omega, le_refl _,
          hstarts c (List.mem_cons_self _ _), ?_⟩
        intro c' hc'
        rcases List.mem_cons.mp hc' with hcc | hcr
        · left
          rw [hcc]
        · left
          have := hlater c' hcr
          have hcwf := hwf c (List.mem_cons_self _ _)
          dsimp
          omega
      · rw [if_neg hgap] at h1
        exact absurd h1 (List.not_mem_nil _)
    · have ih := free_slots_walk_spec duration rest c.end_time hwf_rest
        ((List.chain'_cons'.mp hsep).2) hlater
        (fun x hx => hstarts x (List.mem_cons_of_mem _ hx)) slot h2
      obtain ⟨hdur, hcur', hstop, hdisj⟩ := ih
      have hcwf := hwf c (List.mem_cons_self _ _)
      have hcs := hcur c (List.mem_cons_self _ _)
      refine ⟨hdur, by omega, hstop, ?_⟩
      intro c' hc'
      rcases List.mem_cons.mp hc' with hcc | hcr
      · right
        rw [hcc]
        exact hcur'
      · exact hdisj c' hcr

/-- C1 as stated is false: the class 07:00–07:30 is a sorted, pairwise
non-overlapping, well-formed singleton list, yet the returned slot
07:30–21:00 starts before the 08:00 window start. -/
theorem claim_C1_counterexample :
    (∀ c ∈ [(⟨1, 420, 450⟩ : ClassSession)], c.start_time < c.end_time) ∧
    List.Chain' (fun a b => a.start_time ≤ b.start_time)
      [(⟨1, 420, 450⟩ : ClassSession)] ∧
    List.Pairwise (fun a b =>
        ¬ overlaps a.start_time a.end_time b.start_time b.end_time)
      [(⟨1, 420, 450⟩ : ClassSession)] ∧
    get_free_slots [⟨1, 420, 450⟩] 60 = [⟨450, 1260, 810⟩] ∧
    ¬ (∀ slot ∈ get_free_slots [⟨1, 420, 450⟩] 60,
        day_start ≤ slot.start ∧ slot.stop ≤ day_end) := by
  refine ⟨by decide, List.chain'_singleton _, List.pairwise_singleton _ _,
    by decide, ?_⟩
  intro h
  have h1 := h ⟨450, 1260, 810⟩ (by decide)
  exact absurd h1.1 (by decide)

/-- C1 amended: on a sorted, pairwise non-overlapping, well-formed class
list every returned FreeSlot is at least the target duration long and
overlaps no input class — with no restriction on where the classes lie;
the slots additionally stay inside the day window 08:00–21:00 provided
every input class itself lies inside that window. -/
theorem claim_C1_amended (classes : List ClassSession) (duration : Nat)
    (hwf : ∀ c ∈ classes, c.start_time < c.end_time)
    (hsorted : List.Chain' (fun a b => a.start_time ≤ b.start_time) classes)
    (hnov : List.Pairwise (fun a b =>
      ¬ overlaps a.start_time a.end_time b.start_time b.end_time) classes) :
    (∀ slot ∈ get_free_slots classes duration,
      duration ≤ slot.duration ∧
      ∀ c ∈ classes, ¬ overlaps slot.start slot.stop c.start_time c.end_time) ∧
    ((∀ c ∈ classes, day_start ≤ c.start_time ∧ c.end_time ≤ day_end) →
      ∀ slot ∈ get_free_slots classes duration,
        day_start ≤ slot.start ∧ slot.stop ≤ day_end) := by
  haveI : IsTrans ClassSession (fun a b => a.start_time ≤ b.start_time) :=
    ⟨fun a b c hab hbc => le_trans hab hbc⟩
  have hsort_eq : sort_classes classes = classes :=
    List.Sorted.insertionSort_eq (List.chain'_iff_pairwise.mp hsorted)
  have hsep : List.Chain' (fun a b => a.end_time ≤ b.start_time) classes :=
    sep_chain classes hwf hsorted hnov.chain'
  have hwalk : get_free_slots classes duration =
      free_slots_walk duration day_start classes := by
    rw [get_free_slots, hsort_eq]
  constructor
  · intro slot hs
    rw [hwalk] at hs
    obtain ⟨hdur, -, hdisj⟩ :=
      free_slots_walk_disjoint duration classes day_start hwf hsep slot hs
    refine ⟨hdur, ?_⟩
    intro c hc
    intro hov
    unfold overlaps at hov
    rcases hdisj c hc with h1 | h2 <;> omega
  · intro hwin slot hs
    rw [hwalk] at hs
    obtain ⟨-, hstart, hstop, -⟩ :=
      free_slots_walk_spec duration classes day_start hwf hsep
        (fun c hc => (hwin c hc).1)
        (fun c hc => le_trans (le_of_lt (hwf c hc)) (hwin c hc).2)
        slot hs
    exact ⟨hstart, hstop⟩

/-- Concrete instantiation of the amended C1 theorem on the worked example
class list: the first returned slot, 08:00–09:00, fits the duration and
lies inside the window. -/
theorem claim_C1_amended_witness :
    60 ≤ (⟨480, 540, 60⟩ : FreeSlot).duration ∧
    day_start ≤ (⟨480, 540, 60⟩ : FreeSlot).start ∧
    (⟨480, 540, 60⟩ : FreeSlot).stop ≤ day_end := by
  have h := claim_C1_amended [⟨1, 540, 630⟩, ⟨2, 780, 840⟩] 60
    (by decide)
    (List.chain'_cons.mpr ⟨by decide, List.chain'_singleton _⟩)
    (List.pairwise_cons.mpr
      ⟨fun b hb => by
        have hbe : b = ⟨2, 780, 840⟩ := by simpa using hb
        rw [hbe]
        decide,
       List.pairwise_singleton _ _⟩)
  have hdur := (h.1 ⟨480, 540, 60⟩ (by decide)).1
  have hwin := h.2 (by decide) ⟨480, 540, 60⟩ (by decide)
  exact ⟨hdur, hwin.1, hwin.2⟩

set_option maxRecDepth 1000000 in
/-- C3 as stated is false: on classes 09:00–10:30 and 13:00–14:00 with a
60-minute task the Free-Slot Finder does return the three claimed slots,
but the Slot Ranker selects the 10:30–13:00 slot (score 8 + 7 = 15), not
the 14:00–21:00 slot (score 10 + 0 = 10): the chosen start is 10:30, not
14:00. -/
theorem claim_C3_counterexample :
    get_free_slots [⟨1, 540, 630⟩, ⟨2, 780, 840⟩] 60 =
      [⟨480, 540, 60⟩, ⟨630, 780, 150⟩, ⟨840, 1260, 420⟩] ∧
    (rank_best_slot 60
        (get_free_slots [⟨1, 540, 630⟩, ⟨2, 780, 840⟩] 60)).map FreeSlot.start =
      some 630 ∧
    (rank_best_slot 60
        (get_free_slots [⟨1, 540, 630⟩, ⟨2, 780, 840⟩] 60)).map FreeSlot.start ≠
      some 840 := by
  decide

set_option maxRecDepth 1000000 in
/-- C3 amended: the Free-Slot Finder returns exactly the slots
08:00–09:00 (60m), 10:30–13:00 (150m), 14:00–21:00 (420m), and the Slot
Ranker selects the 10:30–13:00 slot — its morning bonus 8 plus
duration-fit 7 (total 15, exact in binary64) beats the afternoon slot
bonus 10 plus duration-fit 0 (total 10) — so the chosen start is 10:30;
a commit would set the scheduled end to 11:30, which the scheduler
reaches only for a string due date: for the `datetime` due date the repo
stores, `auto_schedule_tasks` raises `TypeError` before committing. -/
theorem claim_C3_amended :
    get_free_slots [⟨1, 540, 630⟩, ⟨2, 780, 840⟩] 60 =
      [⟨480, 540, 60⟩, ⟨630, 780, 150⟩, ⟨840, 1260, 420⟩] ∧
    fscore 60 ⟨630, 780, 150⟩ = 15 ∧
    fscore 60 ⟨840, 1260, 420⟩ = 10 ∧
    rank_best_slot 60 (get_free_slots [⟨1, 540, 630⟩, ⟨2, 780, 840⟩] 60) =
      some ⟨630, 780, 150⟩ ∧
    try_schedule (fun _ => [⟨1, 540, 630⟩, ⟨2, 780, 840⟩]) 0
        ⟨3, "Medium", some (DueDate.iso 3480), some 60, none, false⟩ =
      Except.ok (some ⟨3, 0, 630, 690⟩) ∧
    try_schedule (fun _ => [⟨1, 540, 630⟩, ⟨2, 780, 840⟩]) 0
        ⟨3, "Medium", some (DueDate.dt 3480), some 60, none, false⟩ =
      Except.error "TypeError" := by
  decide

set_option maxRecDepth 1000000 in
/-- C2 as stated is false: in the repo, the due date of urgent Task B is a
`datetime`, so when the scheduler reaches Task B — first, by its score
140 — the horizon computation `min(datetime, date)` raises `TypeError`:
Task B is never scheduled on day offset 0, Task A is never considered,
and no notification is emitted, as witnessed on classes 08:00–14:00 and
15:00–21:00 that leave exactly one 60-minute slot per day. -/
theorem claim_C2_counterexample :
    get_free_slots [⟨1, 480, 840⟩, ⟨2, 900, 1260⟩] 60 = [⟨840, 900, 60⟩] ∧
    auto_schedule_tasks (fun _ => [⟨1, 480, 840⟩, ⟨2, 900, 1260⟩]) 600
        [⟨1, "Low", none, some 60, none, false⟩,
         ⟨2, "Urgent", some (DueDate.dt 1200), some 60, none, false⟩] =
      ⟨[], [], some "TypeError"⟩ := by
  decide

set_option maxRecDepth 1000000 in
/-- C2 amended: with the `datetime` due date the repo stores, the run
raises `TypeError` when Task B (sorted first with score 140, before Task
A with score 25) is reached, so neither task is scheduled and no
notification is emitted; were the due date of Task B an ISO string, Task
B would be scheduled into the single day-0 slot first and Task A would
then be assigned that very same day-0 slot — not deferred to a later day
nor reported — because the Free-Slot Finder derives slots from classes
only and ignores assignments made earlier in the run. -/
theorem claim_C2_amended :
    sort_tasks 600
        [⟨1, "Low", none, some 60, none, false⟩,
         ⟨2, "Urgent", some (DueDate.dt 1200), some 60, none, false⟩] =
      [⟨2, "Urgent", some (DueDate.dt 1200), some 60, none, false⟩,
       ⟨1, "Low", none, some 60, none, false⟩] ∧
    calculate_priority_score 600
      ⟨2, "Urgent", some (DueDate.dt 1200), some 60, none, false⟩ = 140 ∧
    calculate_priority_score 600
      ⟨1, "Low", none, some 60, none, false⟩ = 25 ∧
    auto_schedule_tasks (fun _ => [⟨1, 480, 840⟩, ⟨2, 900, 1260⟩]) 600
        [⟨1, "Low", none, some 60, none, false⟩,
         ⟨2, "Urgent", some (DueDate.dt 1200), some 60, none, false⟩] =
      ⟨[], [], some "TypeError"⟩ ∧
    auto_schedule_tasks (fun _ => [⟨1, 480, 840⟩, ⟨2, 900, 1260⟩]) 600
        [⟨1, "Low", none, some 60, none, false⟩,
         ⟨2, "Urgent", some (DueDate.iso 1200), some 60, none, false⟩] =
      ⟨[⟨2, 0, 840, 900⟩, ⟨1, 0, 840, 900⟩], [], none⟩ := by
  decide

/-- A task whose due date is absent or an ISO string never raises in
`try_schedule`: the horizon computation succeeds on exactly these runtime
types. -/
theorem try_schedule_ok (f : Nat → List ClassSession) (today : Int) (u : Task)
    (h : ∀ d : DueDate, u.due_date = some d → ∃ k : Int, d = DueDate.iso k) :
    ∃ r, try_schedule f today u = Except.ok r := by
  have hs : ∃ offs, search_offsets today u = Except.ok offs := by
    cases hdue : u.due_date with
    | none =>
      exact ⟨List.range (today + 7 - today + 1).toNat,
        by simp only [search_offsets, hdue]⟩
    | some d =>
      obtain ⟨k, hk⟩ := h d hdue
      subst hk
      exact ⟨List.range (min (date_of k) (today + 7) - today + 1).toNat,
        by simp only [search_offsets, hdue]⟩
  obtain ⟨offs, hoffs⟩ := hs
  unfold try_schedule
  rw [hoffs]
  dsimp only
  cases hf : first_slot_day f u today offs with
  | none => exact ⟨none, rfl⟩
  | some p =>
    exact ⟨some ⟨u.task_id, today + p.1, p.2.start,
      (p.2.start + u.estimated_duration.getD 60) % 1440⟩, rfl⟩

/-- Closed form of the per-task loop on a crash-free task list: the
scheduled list collects the successful `try_schedule` results in task
order, the notification list holds one `schedule_conflict` per failed
task in task order, and no error escapes. -/
theorem schedule_loop_eq (f : Nat → List ClassSession) (today : Int) :
    ∀ l : List Task, (∀ u ∈ l, ∃ r, try_schedule f today u = Except.ok r) →
      schedule_loop f today l =
        ⟨l.filterMap (try_schedule_res f today),
         (l.filter (fun u => (try_schedule_res f today u).isNone)).map
           (fun u => ⟨"schedule_conflict", some u.task_id⟩),
         none⟩
  | [], _ => rfl
  | t :: rest, hok => by
    have ih := schedule_loop_eq f today rest
      (fun u hu => hok u (List.mem_cons_of_mem _ hu))
    obtain ⟨r, hr⟩ := hok t (List.mem_cons_self _ _)
    have hres : try_schedule_res f today t = r := by
      unfold try_schedule_res
      rw [hr]
    cases r with
    | some a =>
      simp [schedule_loop, hr, ih, List.filterMap_cons, List.filter_cons, hres]
    | none =>
      simp [schedule_loop, hr, ih, List.filterMap_cons, List.filter_cons, hres]

/-- Every committed assignment of a run originates from a task of the
list whose `try_schedule` succeeded with it — also across a crash, since
the loop aborts with nothing committed at the raising task. -/
theorem mem_scheduled_of (f : Nat → List ClassSession) (today : Int) :
    ∀ (l : List Task) (a : Assignment),
      a ∈ (schedule_loop f today l).scheduled →
      ∃ t ∈ l, try_schedule f today t = Except.ok (some a)
  | [], a, h => absurd h (List.not_mem_nil _)
  | t :: rest, a, h => by
    cases hv : try_schedule f today t with
    | error e =>
      rw [show (schedule_loop f today (t :: rest)).scheduled = [] from by
        simp [schedule_loop, hv]] at h
      exact absurd h (List.not_mem_nil _)
    | ok r =>
      cases r with
      | some a0 =>
        rw [show (schedule_loop f today (t :: rest)).scheduled =
            a0 :: (schedule_loop f today rest).scheduled from by
          simp [schedule_loop, hv]] at h
        rcases List.mem_cons.mp h with h1 | h2
        · exact ⟨t, List.mem_cons_self _ _, by rw [hv, h1]⟩
        · obtain ⟨t', ht', hts⟩ := mem_scheduled_of f today rest a h2
          exact ⟨t', List.mem_cons_of_mem _ ht', hts⟩
      | none =>
        rw [show (schedule_loop f today (t :: rest)).scheduled =
            (schedule_loop f today rest).scheduled from by
          simp [schedule_loop, hv]] at h
        obtain ⟨t', ht', hts⟩ := mem_scheduled_of f today rest a h
        exact ⟨t', List.mem_cons_of_mem _ ht', hts⟩

/-- Every notification of a run originates from a task of the list whose
`try_schedule` succeeded with no slot — also across a crash. -/
theorem mem_notifications_of (f : Nat → List ClassSession) (today : Int) :
    ∀ (l : List Task) (n : Notification),
      n ∈ (schedule_loop f today l).notifications →
      ∃ t ∈ l, try_schedule f today t = Except.ok none ∧
        n = ⟨"schedule_conflict", some t.task_id⟩
  | [], n, h => absurd h (List.not_mem_nil _)
  | t :: rest, n, h => by
    cases hv : try_schedule f today t with
    | error e =>
      rw [show (schedule_loop f today (t :: rest)).notifications = [] from by
        simp [schedule_loop, hv]] at h
      exact absurd h (List.not_mem_nil _)
    | ok r =>
      cases r with
      | some a0 =>
        rw [show (schedule_loop f today (t :: rest)).notifications =
            (schedule_loop f today rest).notifications from by
          simp [schedule_loop, hv]] at h
        obtain ⟨t', ht', hts, hn⟩ := mem_notifications_of f today rest n h
        exact ⟨t', List.mem_cons_of_mem _ ht', hts, hn⟩
      | none =>
        rw [show (schedule_loop f today (t :: rest)).notifications =
            ⟨"schedule_conflict", some t.task_id⟩ ::
              (schedule_loop f today rest).notifications from by
          simp [schedule_loop, hv]] at h
        rcases List.mem_cons.mp h with h1 | h2
        · exact ⟨t, List.mem_cons_self _ _, hv, h1⟩
        · obtain ⟨t', ht', hts, hn⟩ := mem_notifications_of f today rest n h2
          exact ⟨t', List.mem_cons_of_mem _ ht', hts, hn⟩

/-- A committed assignment carries the id of the task it was made for. -/
theorem try_schedule_task_id (f : Nat → List ClassSession) (today : Int)
    (t : Task) (a : Assignment)
    (h : try_schedule f today t = Except.ok (some a)) :
    a.task_id = t.task_id := by
  unfold try_schedule at h
  cases hs : search_offsets today t with
  | error e =>
    rw [hs] at h
    exact absurd h (by simp)
  | ok offs =>
    rw [hs] at h
    dsimp only at h
    cases hf : first_slot_day f t today offs with
    | none =>
      rw [hf] at h
      exact absurd h (by simp)
    | some p =>
      rw [hf] at h
      dsimp only at h
      injection h with h1
      injection h1 with h2
      rw [← h2]

/-- In a task list with pairwise distinct ids, the id determines the
task. -/
theorem task_eq_of_id {l : List Task} (hnd : (l.map Task.task_id).Nodup)
    {a b : Task} (ha : a ∈ l) (hb : b ∈ l) (hid : a.task_id = b.task_id) :
    a = b :=
  List.inj_on_of_nodup_map hnd ha hb hid

/-- With pairwise distinct task ids, the count of crash-free failed tasks
carrying the id of `t` is 1 when `t` fails to schedule and 0 when it
schedules. -/
theorem countP_try_schedule (f : Nat → List ClassSession) (today : Int)
    (t : Task) :
    ∀ l : List Task, t ∈ l → (l.map Task.task_id).Nodup →
      l.countP (fun u => (try_schedule_res f today u).isNone &&
          (u.task_id == t.task_id)) =
        if (try_schedule_res f today t).isNone then 1 else 0
  | [], ht, _ => absurd ht (List.not_mem_nil _)
  | x :: rest, ht, hnd => by
    rw [List.map_cons] at hnd
    have hnd_tail : (rest.map Task.task_id).Nodup := (List.nodup_cons.mp hnd).2
    have hx_not : x.task_id ∉ rest.map Task.task_id := (List.nodup_cons.mp hnd).1
    by_cases hxt : x.task_id = t.task_id
    · have htx : t = x := by
        rcases List.mem_cons.mp ht with h1 | h2
        · exact h1
        · exfalso
          apply hx_not
          rw [hxt]
          exact List.mem_map_of_mem Task.task_id h2
      have hrest0 : rest.countP (fun u => (try_schedule_res f today u).isNone &&
          (u.task_id == t.task_id)) = 0 := by
        rw [List.countP_eq_zero]
        intro u hu
        simp only [Bool.and_eq_true, beq_iff_eq, not_and]
        intro _ hut
        exact hx_not (by
          rw [hxt, ← hut]
          exact List.mem_map_of_mem Task.task_id hu)
      rw [List.countP_cons, hrest0, ← htx]
      simp
    · have ht_rest : t ∈ rest := by
        rcases List.mem_cons.mp ht with h1 | h2
        · exact absurd (congrArg Task.task_id h1.symm) hxt
        · exact h2
      have ih := countP_try_schedule f today t rest ht_rest hnd_tail
      rw [List.countP_cons, ih]
      simp [hxt]

/-- A run over a pool whose due dates are all ISO strings (or absent)
raises no exception. -/
theorem auto_error_none (f : Nat → List ClassSession) (now : Int)
    (tasks : List Task)
    (hiso : ∀ u ∈ tasks, ∀ d : DueDate, u.due_date = some d →
      ∃ k : Int, d = DueDate.iso k) :
    (auto_schedule_tasks f now tasks).error = none := by
  have hok : ∀ u ∈ sort_tasks now ((tasks.filter (fun v => !v.is_completed)).filter
      (fun v => v.scheduled_date.isNone)),
      ∃ r, try_schedule f (date_of now) u = Except.ok r := by
    intro u hu
    have hu1 : u ∈ (tasks.filter (fun v => !v.is_completed)).filter
        (fun v => v.scheduled_date.isNone) :=
      (List.perm_insertionSort _ _).mem_iff.mp hu
    have hu2 : u ∈ tasks :=
      List.mem_of_mem_filter (List.mem_of_mem_filter hu1)
    exact try_schedule_ok f (date_of now) u (hiso u hu2)
  by_cases hemp : ((tasks.filter (fun v => !v.is_completed)).filter
      (fun v => v.scheduled_date.isNone)).isEmpty = true
  · simp only [auto_schedule_tasks, hemp, if_true]
  · have hemp' : ((tasks.filter (fun v => !v.is_completed)).filter
        (fun v => v.scheduled_date.isNone)).isEmpty = false := by
      revert hemp
      cases ((tasks.filter (fun v => !v.is_completed)).filter
        (fun v => v.scheduled_date.isNone)).isEmpty <;> simp
    simp only [auto_schedule_tasks, hemp', Bool.false_eq_true, if_false]
    rw [schedule_loop_eq f (date_of now) _ hok]

/-- The auto-scheduler seen from one pool task with a unique id: it is
never assigned a slot unless its own horizon search succeeds with one; it
receives no conflict notification unless its own search succeeds empty;
and on a crash-free pool (all due dates ISO strings or absent) the run
ends without error, a task whose search succeeds empty receives exactly
one conflict notification, and a task whose search succeeds with a slot
appears in the assignment list. -/
theorem auto_sched_core (f : Nat → List ClassSession) (now : Int)
    (tasks : List Task) (hids : (tasks.map Task.task_id).Nodup)
    (t : Task) (ht : t ∈ tasks) (hcomp : t.is_completed = false)
    (hsched : t.scheduled_date = none) :
    ((∀ a : Assignment, try_schedule f (date_of now) t ≠ Except.ok (some a)) →
      ¬ ∃ a ∈ (auto_schedule_tasks f now tasks).scheduled,
        a.task_id = t.task_id) ∧
    (try_schedule f (date_of now) t ≠ Except.ok none →
      (auto_schedule_tasks f now tasks).notifications.countP
        (fun n => n.ntype == "schedule_conflict" &&
          n.related_task_id == some t.task_id) = 0) ∧
    ((∀ u ∈ tasks, ∀ d : DueDate, u.due_date = some d →
        ∃ k : Int, d = DueDate.iso k) →
      (try_schedule f (date_of now) t = Except.ok none →
        (auto_schedule_tasks f now tasks).notifications.countP
          (fun n => n.ntype == "schedule_conflict" &&
            n.related_task_id == some t.task_id) = 1) ∧
      (∀ a : Assignment, try_schedule f (date_of now) t = Except.ok (some a) →
        ∃ a' ∈ (auto_schedule_tasks f now tasks).scheduled,
          a'.task_id = t.task_id)) := by
  have htu : t ∈ (tasks.filter (fun v => !v.is_completed)).filter
      (fun v => v.scheduled_date.isNone) := by
    apply List.mem_filter.mpr
    refine ⟨List.mem_filter.mpr ⟨ht, ?_⟩, ?_⟩
    · rw [hcomp]
      rfl
    · rw [hsched]
      rfl
  have hu_nodup : (((tasks.filter (fun v => !v.is_completed)).filter
      (fun v => v.scheduled_date.isNone)).map Task.task_id).Nodup := by
    have h1 : List.Sublist ((tasks.filter (fun v => !v.is_completed)).filter
        (fun v => v.scheduled_date.isNone)) tasks :=
      List.Sublist.trans (List.filter_sublist _) (List.filter_sublist _)
    exact List.Nodup.sublist (h1.map Task.task_id) hids
  have hne : ((tasks.filter (fun v => !v.is_completed)).filter
      (fun v => v.scheduled_date.isNone)).isEmpty = false := by
    rw [List.isEmpty_eq_false]
    intro h0
    rw [h0] at htu
    exact absurd htu (List.not_mem_nil _)
  have hauto : auto_schedule_tasks f now tasks =
      schedule_loop f (date_of now)
        (sort_tasks now ((tasks.filter (fun v => !v.is_completed)).filter
          (fun v => v.scheduled_date.isNone))) := by
    simp only [auto_schedule_tasks, hne, Bool.false_eq_true, if_false]
  have hperm : List.Perm
      (sort_tasks now ((tasks.filter (fun v => !v.is_completed)).filter
        (fun v => v.scheduled_date.isNone)))
      ((tasks.filter (fun v => !v.is_completed)).filter
        (fun v => v.scheduled_date.isNone)) :=
    List.perm_insertionSort _ _
  have hts : t ∈ sort_tasks now ((tasks.filter (fun v => !v.is_completed)).filter
      (fun v => v.scheduled_date.isNone)) := hperm.mem_iff.mpr htu
  have hs_nodup : ((sort_tasks now ((tasks.filter (fun v => !v.is_completed)).filter
      (fun v => v.scheduled_date.isNone))).map Task.task_id).Nodup :=
    ((hperm.map Task.task_id).nodup_iff).mpr hu_nodup
  refine ⟨?_, ?_, ?_⟩
  · rintro hnot ⟨a, ha, haid⟩
    rw [hauto] at ha
    obtain ⟨t', ht', ht'ok⟩ := mem_scheduled_of f (date_of now) _ a ha
    have hid : t'.task_id = t.task_id :=
      (try_schedule_task_id f (date_of now) t' a ht'ok).symm.trans haid
    have htt : t' = t := task_eq_of_id hs_nodup ht' hts hid
    rw [htt] at ht'ok
    exact hnot a ht'ok
  · intro hnn
    rw [hauto, List.countP_eq_zero]
    intro n hn hp
    obtain ⟨t', ht', ht'none, hneq⟩ := mem_notifications_of f (date_of now) _ n hn
    rw [hneq] at hp
    simp only [Bool.and_eq_true, beq_iff_eq, Option.some.injEq] at hp
    have htt : t' = t := task_eq_of_id hs_nodup ht' hts hp.2
    rw [htt] at ht'none
    exact hnn ht'none
  · intro hiso
    have hok : ∀ u ∈ sort_tasks now ((tasks.filter (fun v => !v.is_completed)).filter
        (fun v => v.scheduled_date.isNone)),
        ∃ r, try_schedule f (date_of now) u = Except.ok r := by
      intro u hu
      have hu2 : u ∈ tasks :=
        List.mem_of_mem_filter (List.mem_of_mem_filter (hperm.mem_iff.mp hu))
      exact try_schedule_ok f (date_of now) u (hiso u hu2)
    have hloop := schedule_loop_eq f (date_of now) _ hok
    constructor
    · intro htnone
      have hres : try_schedule_res f (date_of now) t = none := by
        unfold try_schedule_res
        rw [htnone]
      rw [hauto, hloop]
      dsimp only
      rw [List.countP_map, List.countP_filter]
      rw [List.countP_congr (q := fun u => (try_schedule_res f (date_of now) u).isNone &&
          (u.task_id == t.task_id))]
      · rw [countP_try_schedule f (date_of now) t _ hts hs_nodup, hres]
        rfl
      · intro x hx
        simp only [Function.comp_apply, Bool.and_eq_true, beq_iff_eq,
          Option.some.injEq, Option.isNone_iff_eq_none]
        constructor
        · rintro ⟨⟨-, h2⟩, h3⟩
          exact ⟨h3, h2⟩
        · rintro ⟨h3, h2⟩
          exact ⟨⟨trivial, h2⟩, h3⟩
    · intro a hta
      have hres : try_schedule_res f (date_of now) t = some a := by
        unfold try_schedule_res
        rw [hta]
      rw [hauto, hloop]
      dsimp only
      exact ⟨a, List.mem_filterMap.mpr ⟨t, hts, hres⟩,
        try_schedule_task_id f (date_of now) t a hta⟩

/-- C7 as stated is false: a pool containing a task with a `datetime` due
date — the runtime type the repo stores — raises `TypeError` at the
horizon computation, which propagates out of `auto_schedule_tasks`; here
low-priority task 2 is schedulable on its own, but the crash of task 1
stops the batch before it, and neither an assignment nor any notification
is produced for either task. -/
theorem claim_C7_counterexample :
    auto_schedule_tasks (fun _ => []) 600
        [⟨2, "Low", none, some 60, none, false⟩,
         ⟨1, "Urgent", some (DueDate.dt 1200), some 60, none, false⟩] =
      ⟨[], [], some "TypeError"⟩ ∧
    auto_schedule_tasks (fun _ => []) 600
        [⟨2, "Low", none, some 60, none, false⟩] =
      ⟨[⟨2, 0, 480, 540⟩], [], none⟩ := by
  decide

/-- C7 amended: over a pool of tasks with pairwise distinct ids whose due
dates are all ISO strings or absent — the only runtime types whose
horizon computation does not raise — the run terminates with no
exception, and every incomplete, unscheduled pool task either appears in
the returned assignment list or has exactly one schedule_conflict
notification referencing it, never both; a pool task with a `datetime`
due date instead raises `TypeError` when reached, aborting the batch. -/
theorem claim_C7_batch_partition (f : Nat → List ClassSession) (now : Int)
    (tasks : List Task) (hids : (tasks.map Task.task_id).Nodup)
    (hiso : ∀ u ∈ tasks, ∀ d : DueDate, u.due_date = some d →
      ∃ k : Int, d = DueDate.iso k) :
    (auto_schedule_tasks f now tasks).error = none ∧
    ∀ t ∈ tasks, t.is_completed = false → t.scheduled_date = none →
      ((∃ a ∈ (auto_schedule_tasks f now tasks).scheduled,
          a.task_id = t.task_id) ∧
        (auto_schedule_tasks f now tasks).notifications.countP
          (fun n => n.ntype == "schedule_conflict" &&
            n.related_task_id == some t.task_id) = 0) ∨
      ((¬ ∃ a ∈ (auto_schedule_tasks f now tasks).scheduled,
          a.task_id = t.task_id) ∧
        (auto_schedule_tasks f now tasks).notifications.countP
          (fun n => n.ntype == "schedule_conflict" &&
            n.related_task_id == some t.task_id) = 1) := by
  refine ⟨auto_error_none f now tasks hiso, ?_⟩
  intro t ht hcomp hsched
  have hcore := auto_sched_core f now tasks hids t ht hcomp hsched
  obtain ⟨r, hr⟩ := try_schedule_ok f (date_of now) t (hiso t ht)
  cases r with
  | some a =>
    left
    refine ⟨(hcore.2.2 hiso).2 a hr, hcore.2.1 ?_⟩
    rw [hr]
    intro hh
    exact Option.noConfusion (Except.ok.inj hh)
  | none =>
    right
    refine ⟨hcore.1 ?_, (hcore.2.2 hiso).1 hr⟩
    intro a hh
    rw [hr] at hh
    exact Option.noConfusion (Except.ok.inj hh)

/-- Concrete instantiation of the C7 partition theorem: one urgent task
with a string due date on an empty timetable is scheduled, with no
conflict notification referencing it. -/
theorem claim_C7_batch_partition_witness :
    (auto_schedule_tasks (fun _ => []) 600
        [⟨7, "Urgent", some (DueDate.iso 1200), some 60, none, false⟩]).notifications.countP
      (fun n => n.ntype == "schedule_conflict" &&
        n.related_task_id == some 7) = 0 := by
  rcases (claim_C7_batch_partition (fun _ => []) 600
      [⟨7, "Urgent", some (DueDate.iso 1200), some 60, none, false⟩] (by decide)
      (by
        intro u hu d hd
        have hue : u = ⟨7, "Urgent", some (DueDate.iso 1200), some 60, none, false⟩ := by
          simpa using hu
        rw [hue] at hd
        injection hd with h1
        exact ⟨1200, h1.symm⟩)).2
      ⟨7, "Urgent", some (DueDate.iso 1200), some 60, none, false⟩
      (by decide) rfl rfl
    with h | h
  · exact h.2
  · exact absurd h.2 (by decide)

/-- A task whose string due date falls strictly before today has an empty
search horizon. -/
theorem search_offsets_past_due (today : Int) (t : Task) (k : Int)
    (hdue : t.due_date = some (DueDate.iso k)) (hpast : date_of k < today) :
    search_offsets today t = Except.ok [] := by
  simp only [search_offsets, hdue]
  have h0 : (min (date_of k) (today + 7) - today + 1).toNat = 0 := by omega
  rw [h0]
  rfl

/-- C10 as stated is false: an overdue task in this repo carries a
`datetime` due date, so the run raises `TypeError` at the horizon
computation before the empty day-offset range is ever computed and before
`create_notification` is called — the task is indeed never scheduled, but
no schedule_conflict notification is emitted. -/
theorem claim_C10_counterexample :
    auto_schedule_tasks (fun _ => []) 600
        [⟨7, "High", some (DueDate.dt (-1440)), some 60, none, false⟩] =
      ⟨[], [], some "TypeError"⟩ := by
  decide

/-- C10 amended: an incomplete, unscheduled task due strictly before
today is never assigned a slot and receives the maximal +50 urgency
bonus; with a `datetime` due date (the type the repo stores) the run
raises `TypeError` when the task is reached, so no offsets are computed
and no notification is emitted for it; only with an ISO-string due date —
and a pool that raises nowhere — is the day-offset range empty and
exactly one schedule_conflict notification emitted for the task. -/
theorem claim_C10_overdue_task (f : Nat → List ClassSession) (now : Int)
    (tasks : List Task) (hids : (tasks.map Task.task_id).Nodup)
    (t : Task) (ht : t ∈ tasks) (hcomp : t.is_completed = false)
    (hsched : t.scheduled_date = none) (due : DueDate)
    (hdue : t.due_date = some due)
    (hpast : date_of (due_ts due) < date_of now) :
    (¬ ∃ a ∈ (auto_schedule_tasks f now tasks).scheduled,
      a.task_id = t.task_id) ∧
    calculate_priority_score now t = priority_base t.priority + 50 ∧
    (∀ k : Int, due = DueDate.dt k →
      search_offsets (date_of now) t = Except.error "TypeError" ∧
      (auto_schedule_tasks f now tasks).notifications.countP
        (fun n => n.ntype == "schedule_conflict" &&
          n.related_task_id == some t.task_id) = 0) ∧
    (∀ k : Int, due = DueDate.iso k →
      search_offsets (date_of now) t = Except.ok [] ∧
      ((∀ u ∈ tasks, ∀ d : DueDate, u.due_date = some d →
          ∃ k2 : Int, d = DueDate.iso k2) →
        (auto_schedule_tasks f now tasks).notifications.countP
          (fun n => n.ntype == "schedule_conflict" &&
            n.related_task_id == some t.task_id) = 1)) := by
  have hcore := auto_sched_core f now tasks hids t ht hcomp hsched
  have htry : (∀ k : Int, due = DueDate.dt k →
      try_schedule f (date_of now) t = Except.error "TypeError") ∧
      (∀ k : Int, due = DueDate.iso k →
        try_schedule f (date_of now) t = Except.ok none) := by
    constructor
    · intro k hk
      subst hk
      unfold try_schedule
      rw [show search_offsets (date_of now) t = Except.error "TypeError" from by
        simp only [search_offsets, hdue]]
    · intro k hk
      subst hk
      unfold try_schedule
      rw [search_offsets_past_due (date_of now) t k hdue hpast]
      rfl
  have hscore : calculate_priority_score now t =
      priority_base t.priority + 50 := by
    have hd : days_until_due (due_ts due) now < 0 := by
      simp only [days_until_due, date_of] at hpast ⊢
      omega
    have hb : urgency_bonus (days_until_due (due_ts due) now) = 50 := by
      unfold urgency_bonus
      rw [if_pos hd]
    unfold calculate_priority_score
    rw [hdue]
    dsimp only
    rw [hb]
  have hnosome : ∀ a : Assignment,
      try_schedule f (date_of now) t ≠ Except.ok (some a) := by
    intro a hh
    cases hdc : due with
    | dt k =>
      rw [htry.1 k hdc] at hh
      exact Except.noConfusion hh
    | iso k =>
      rw [htry.2 k hdc] at hh
      exact Option.noConfusion (Except.ok.inj hh)
  refine ⟨hcore.1 hnosome, hscore, ?_, ?_⟩
  · intro k hk
    refine ⟨by subst hk; simp only [search_offsets, hdue], ?_⟩
    apply hcore.2.1
    rw [htry.1 k hk]
    intro hh
    exact Except.noConfusion hh
  · intro k hk
    refine ⟨by subst hk; exact search_offsets_past_due (date_of now) t k hdue hpast, ?_⟩
    intro hiso
    exact (hcore.2.2 hiso).1 (htry.2 k hk)

/-- Concrete instantiation of the C10 theorem on the ISO-string path: a
task due yesterday gets an empty horizon, exactly one conflict
notification, and the maximal urgency bonus, despite an empty
timetable. -/
theorem claim_C10_overdue_task_witness :
    search_offsets (date_of 600)
        ⟨7, "High", some (DueDate.iso (-1440)), some 60, none, false⟩ =
      Except.ok [] ∧
    (auto_schedule_tasks (fun _ => []) 600
        [⟨7, "High", some (DueDate.iso (-1440)), some 60, none, false⟩]).notifications.countP
      (fun n => n.ntype == "schedule_conflict" &&
        n.related_task_id == some 7) = 1 ∧
    calculate_priority_score 600
        ⟨7, "High", some (DueDate.iso (-1440)), some 60, none, false⟩ =
      priority_base "High" + 50 := by
  have h := claim_C10_overdue_task (fun _ => []) 600
    [⟨7, "High", some (DueDate.iso (-1440)), some 60, none, false⟩] (by decide)
    ⟨7, "High", some (DueDate.iso (-1440)), some 60, none, false⟩
    (by decide) rfl rfl (DueDate.iso (-1440)) rfl (by decide)
  have hiso : ∀ u ∈ [(⟨7, "High", some (DueDate.iso (-1440)), some 60, none,
      false⟩ : Task)], ∀ d : DueDate, u.due_date = some d →
      ∃ k2 : Int, d = DueDate.iso k2 := by
    intro u hu d hd
    have hue : u = ⟨7, "High", some (DueDate.iso (-1440)), some 60, none, false⟩ := by
      simpa using hu
    rw [hue] at hd
    injection hd with h1
    exact ⟨-1440, h1.symm⟩
  obtain ⟨hs, hcount⟩ := h.2.2.2 (-1440) rfl
  exact ⟨hs, hcount hiso, h.2.1⟩

end Todo
